import Mathlib

/-!
Shallow embedding of the investment-calculator engine (`src/app.py`,
"Calculate Returns" block and tax computation), with theorems checking
the specification's claims about it. Python floats are modelled by
exact rationals (ℚ); the widget-supplied inputs become structure fields.
-/

namespace InvestCalc

/-- Tax type selected by the `capital_gains` radio widget. -/
inductive GainType where
  | ShortTerm : GainType
  | LongTerm : GainType
deriving DecidableEq, Repr

/-- The five inputs consumed by the growth-projection block
(`initial_investment`, `percentage_gain`, `trading_days`,
`trades_per_day`, `reinvest`). -/
structure StrategyParams where
  initial_investment : ℚ
  percentage_gain : ℚ
  trading_days : ℕ
  trades_per_day : ℕ
  reinvest : Bool
deriving DecidableEq, Repr

/-- One row appended to `results_data`: `{"Day": day, "Amount": amount,
"Daily Gain": daily_gain}`. -/
structure DayRecord where
  day : ℕ
  amount : ℚ
  daily_gain : ℚ
deriving DecidableEq, Repr

/-- The inner trade loop of the reinvest branch:
`for trade in range(trades_per_day): trade_gain = current_amount *
(percentage_gain / 100); current_amount += trade_gain`. -/
def applyTrades (g : ℚ) : ℕ → ℚ → ℚ
  | 0, cur => cur
  | n + 1, cur => applyTrades g n (cur + cur * (g / 100))

/-- The outer day loop of the reinvest branch: each day records the
post-trade `current_amount` and the day's gain, then carries
`current_amount` into the next day. `day` is the next day number to
record, `cur` the running `current_amount`, `n` the days remaining. -/
def reinvestLoop (g : ℚ) (tpd : ℕ) : ℕ → ℕ → ℚ → List DayRecord
  | 0, _, _ => []
  | n + 1, day, cur =>
    let cur2 := applyTrades g tpd cur
    { day := day, amount := cur2, daily_gain := cur2 - cur } ::
      reinvestLoop g tpd n (day + 1) cur2

/-- The non-reinvest branch's day loop: a fixed `daily_gain` and
`amount = initial_investment + daily_gain * day` for each day `1..n`. -/
def flatRecords (init dg : ℚ) (n : ℕ) : List DayRecord :=
  (List.range n).map fun i =>
    { day := i + 1, amount := init + dg * ((i : ℚ) + 1), daily_gain := dg }

/-- The whole "Calculate Returns" projection (lines 129–171 of
`src/app.py`): branch on `reinvest`; compound day-and-trade loop, or the
flat accumulation with `trade_gain = initial_investment *
(percentage_gain / 100)` and `daily_gain = trade_gain * trades_per_day`. -/
def project (p : StrategyParams) : List DayRecord :=
  if p.reinvest then
    reinvestLoop p.percentage_gain p.trades_per_day p.trading_days 1 p.initial_investment
  else
    let trade_gain := p.initial_investment * (p.percentage_gain / 100)
    let daily_gain := trade_gain * (p.trades_per_day : ℚ)
    flatRecords p.initial_investment daily_gain p.trading_days

/-- The projection's error channel. The source performs no input
validation before the loop and has no raise statement, so every input is
accepted and the plain record list is returned. -/
def projectE (p : StrategyParams) : Except String (List DayRecord) :=
  Except.ok (project p)

/-- The amount of the last produced record, as read by
`results_df["Amount"].iloc[-1]` (absent when no record was produced). -/
def finalAmount (records : List DayRecord) : Option ℚ :=
  (records.map DayRecord.amount).getLast?

/-- The summary statistic `total_profit = final_amount - initial_investment`. -/
def totalProfit (p : StrategyParams) : Option ℚ :=
  (finalAmount (project p)).map fun a => a - p.initial_investment

/-- The same strategy with `trading_days` and `trades_per_day`
exchanged (used to compare runs whose trade totals agree). -/
def swapDays (p : StrategyParams) : StrategyParams :=
  { p with trading_days := p.trades_per_day, trades_per_day := p.trading_days }

/-- Tax-side inputs: federal and state rates, deductions, the gain-type
radio selection and the long-term rate slider. -/
structure TaxParams where
  federal_tax_rate : ℚ
  state_tax_rate : ℚ
  tax_deductions : ℚ
  capital_gains : GainType
  long_term_rate : ℚ
deriving DecidableEq, Repr

/-- The five values computed by the tax block. -/
structure TaxBreakdown where
  taxable_profit : ℚ
  federal_tax : ℚ
  state_tax : ℚ
  total_tax : ℚ
  net_profit : ℚ
deriving DecidableEq, Repr

/-- Lines 182–191 of `src/app.py`: clamp the taxable profit at zero,
pick the federal-line rate by gain type, add state tax, subtract from
the gross profit. -/
def computeTax (total_profit : ℚ) (p : TaxParams) : TaxBreakdown :=
  let taxable_profit := max 0 (total_profit - p.tax_deductions)
  let federal_tax :=
    if p.capital_gains = GainType.LongTerm then
      taxable_profit * (p.long_term_rate / 100)
    else
      taxable_profit * (p.federal_tax_rate / 100)
  let state_tax := taxable_profit * (p.state_tax_rate / 100)
  let total_tax := federal_tax + state_tax
  { taxable_profit := taxable_profit
    federal_tax := federal_tax
    state_tax := state_tax
    total_tax := total_tax
    net_profit := total_profit - total_tax }

section Lemmas

lemma applyTrades_eq (g : ℚ) : ∀ (n : ℕ) (cur : ℚ),
    applyTrades g n cur = cur * (1 + g / 100) ^ n := by
  intro n
  induction n with
  | zero => intro cur; simp [applyTrades]
  | succ m ih =>
    intro cur
    rw [applyTrades, ih]
    ring

lemma reinvestLoop_length (g : ℚ) (tpd : ℕ) : ∀ (n day : ℕ) (cur : ℚ),
    (reinvestLoop g tpd n day cur).length = n := by
  intro n
  induction n with
  | zero => intro day cur; rfl
  | succ m ih => intro day cur; simp [reinvestLoop, ih]

lemma reinvestLoop_succ (g : ℚ) (tpd n day : ℕ) (cur : ℚ) :
    reinvestLoop g tpd (n + 1) day cur =
      { day := day, amount := applyTrades g tpd cur,
        daily_gain := applyTrades g tpd cur - cur } ::
        reinvestLoop g tpd n (day + 1) (applyTrades g tpd cur) := rfl

lemma reinvestLoop_getElem? (g : ℚ) (tpd : ℕ) : ∀ (n day : ℕ) (cur : ℚ) (i : ℕ),
    i < n →
    (reinvestLoop g tpd n day cur)[i]? =
      some { day := day + i,
             amount := cur * (1 + g / 100) ^ ((i + 1) * tpd),
             daily_gain := cur * (1 + g / 100) ^ ((i + 1) * tpd)
               - cur * (1 + g / 100) ^ (i * tpd) } := by
  intro n
  induction n with
  | zero => intro day cur i h; omega
  | succ m ih =>
    intro day cur i h
    match i with
    | 0 =>
      rw [reinvestLoop_succ, List.getElem?_cons_zero, applyTrades_eq]
      simp only [Option.some.injEq, DayRecord.mk.injEq]
      norm_num
    | j + 1 =>
      rw [reinvestLoop_succ, List.getElem?_cons_succ, ih (day + 1) _ j (by omega),
        applyTrades_eq]
      simp only [Option.some.injEq, DayRecord.mk.injEq]
      refine ⟨by omega, ?_, ?_⟩
      · rw [show (j + 1 + 1) * tpd = tpd + (j + 1) * tpd by ring, pow_add]
        ring
      · rw [show (j + 1 + 1) * tpd = tpd + (j + 1) * tpd by ring,
          show (j + 1) * tpd = tpd + j * tpd by ring, pow_add, pow_add]
        ring

lemma reinvestLoop_get (g : ℚ) (tpd n day : ℕ) (cur : ℚ) (i : ℕ)
    (h : i < (reinvestLoop g tpd n day cur).length) :
    (reinvestLoop g tpd n day cur).get ⟨i, h⟩ =
      { day := day + i,
        amount := cur * (1 + g / 100) ^ ((i + 1) * tpd),
        daily_gain := cur * (1 + g / 100) ^ ((i + 1) * tpd)
          - cur * (1 + g / 100) ^ (i * tpd) } := by
  have h2 : i < n := by rw [reinvestLoop_length] at h; exact h
  have h3 := reinvestLoop_getElem? g tpd n day cur i h2
  rw [List.getElem?_eq_getElem h] at h3
  rw [List.get_eq_getElem]
  exact Option.some.inj h3

lemma reinvestLoop_getLast? (g : ℚ) (tpd n day : ℕ) (cur : ℚ) (hn : 1 ≤ n) :
    (reinvestLoop g tpd n day cur).getLast? =
      some { day := day + (n - 1),
             amount := cur * (1 + g / 100) ^ (n * tpd),
             daily_gain := cur * (1 + g / 100) ^ (n * tpd)
               - cur * (1 + g / 100) ^ ((n - 1) * tpd) } := by
  have hlen : (reinvestLoop g tpd n day cur).length = n :=
    reinvestLoop_length g tpd n day cur
  rw [List.getLast?_eq_getElem?, hlen,
    reinvestLoop_getElem? g tpd n day cur (n - 1) (by omega),
    Nat.sub_add_cancel hn]

lemma reinvestLoop_sum_gains (g : ℚ) (tpd : ℕ) : ∀ (n day : ℕ) (cur : ℚ),
    ((reinvestLoop g tpd n day cur).map DayRecord.daily_gain).sum =
      cur * (1 + g / 100) ^ (n * tpd) - cur := by
  intro n
  induction n with
  | zero => intro day cur; simp [reinvestLoop]
  | succ m ih =>
    intro day cur
    rw [reinvestLoop_succ]
    simp only [List.map_cons, List.sum_cons, ih, applyTrades_eq]
    rw [show (m + 1) * tpd = tpd + m * tpd by ring, pow_add]
    ring

lemma flatRecords_length (init dg : ℚ) (n : ℕ) :
    (flatRecords init dg n).length = n := by
  simp [flatRecords]

lemma flatRecords_getElem? (init dg : ℚ) (n i : ℕ) (h : i < n) :
    (flatRecords init dg n)[i]? =
      some { day := i + 1, amount := init + dg * ((i : ℚ) + 1), daily_gain := dg } := by
  simp [flatRecords, List.getElem?_map, List.getElem?_range, h]

lemma flatRecords_get (init dg : ℚ) (n i : ℕ) (h : i < (flatRecords init dg n).length) :
    (flatRecords init dg n).get ⟨i, h⟩ =
      { day := i + 1, amount := init + dg * ((i : ℚ) + 1), daily_gain := dg } := by
  have h2 : i < n := by rw [flatRecords_length] at h; exact h
  have h3 := flatRecords_getElem? init dg n i h2
  rw [List.getElem?_eq_getElem h] at h3
  rw [List.get_eq_getElem]
  exact Option.some.inj h3

lemma flatRecords_getLast? (init dg : ℚ) (n : ℕ) (hn : 1 ≤ n) :
    (flatRecords init dg n).getLast? =
      some { day := n, amount := init + dg * (n : ℚ), daily_gain := dg } := by
  have hlen : (flatRecords init dg n).length = n := flatRecords_length init dg n
  rw [List.getLast?_eq_getElem?, hlen, flatRecords_getElem? init dg n (n - 1) (by omega)]
  have hday : n - 1 + 1 = n := Nat.sub_add_cancel hn
  have hcast : ((n - 1 : ℕ) : ℚ) + 1 = (n : ℚ) := by
    rw [Nat.cast_sub hn]
    push_cast
    ring
  rw [hday, hcast]

lemma reinvestLoop_getElem (g : ℚ) (tpd n day : ℕ) (cur : ℚ) (i : ℕ)
    (h : i < (reinvestLoop g tpd n day cur).length) :
    (reinvestLoop g tpd n day cur)[i] =
      { day := day + i,
        amount := cur * (1 + g / 100) ^ ((i + 1) * tpd),
        daily_gain := cur * (1 + g / 100) ^ ((i + 1) * tpd)
          - cur * (1 + g / 100) ^ (i * tpd) } := by
  have h2 : i < n := by rw [reinvestLoop_length] at h; exact h
  have h3 := reinvestLoop_getElem? g tpd n day cur i h2
  rw [List.getElem?_eq_getElem h] at h3
  exact Option.some.inj h3

lemma flatRecords_getElem (init dg : ℚ) (n i : ℕ)
    (h : i < (flatRecords init dg n).length) :
    (flatRecords init dg n)[i] =
      { day := i + 1, amount := init + dg * ((i : ℚ) + 1), daily_gain := dg } := by
  have h2 : i < n := by rw [flatRecords_length] at h; exact h
  have h3 := flatRecords_getElem? init dg n i h2
  rw [List.getElem?_eq_getElem h] at h3
  exact Option.some.inj h3

lemma flatRecords_map_gain (init dg : ℚ) (n : ℕ) :
    (flatRecords init dg n).map DayRecord.daily_gain = List.replicate n dg := by
  unfold flatRecords
  rw [List.map_map]
  rw [show (DayRecord.daily_gain ∘ fun i : ℕ =>
      ({ day := i + 1, amount := init + dg * ((i : ℚ) + 1),
         daily_gain := dg } : DayRecord)) = fun _ : ℕ => dg from rfl]
  rw [List.map_const', List.length_range]

lemma mem_flatRecords (init dg : ℚ) (n : ℕ) (r : DayRecord) :
    r ∈ flatRecords init dg n ↔
      ∃ i, i < n ∧
        r = { day := i + 1, amount := init + dg * ((i : ℚ) + 1), daily_gain := dg } := by
  simp only [flatRecords, List.mem_map, List.mem_range]
  constructor
  · rintro ⟨i, hi, rfl⟩
    exact ⟨i, hi, rfl⟩
  · rintro ⟨i, hi, rfl⟩
    exact ⟨i, hi, rfl⟩

/-- The final amount in reinvest mode: pure compound growth over
`trading_days * trades_per_day` trades. -/
lemma reinvest_finalAmount (p : StrategyParams) (hd : 1 ≤ p.trading_days)
    (hr : p.reinvest = true) :
    finalAmount (project p) =
      some (p.initial_investment
        * (1 + p.percentage_gain / 100) ^ (p.trading_days * p.trades_per_day)) := by
  unfold finalAmount project
  rw [hr, if_pos rfl, List.getLast?_map,
    reinvestLoop_getLast? p.percentage_gain p.trades_per_day p.trading_days 1
      p.initial_investment hd]
  rfl

/-- The final amount in flat mode: linear accumulation of the fixed
daily gain. -/
lemma flat_finalAmount (p : StrategyParams) (hd : 1 ≤ p.trading_days)
    (hr : p.reinvest = false) :
    finalAmount (project p) =
      some (p.initial_investment
        + p.initial_investment * (p.percentage_gain / 100) * (p.trades_per_day : ℚ)
          * (p.trading_days : ℚ)) := by
  unfold finalAmount project
  rw [hr, if_neg (by simp [hr]), List.getLast?_map]
  rw [flatRecords_getLast? _ _ _ hd]
  rfl

end Lemmas

/-- C1: for every valid `StrategyParams` with `reinvest = true`
(`initial_investment > 0`, `percentage_gain_per_trade > 0`,
`trading_days ≥ 1`, `trades_per_day ≥ 1`), the recorded amount of the
last day equals `initial_investment * (1 + percentage_gain/100) ^
(trading_days * trades_per_day)`. -/
theorem reinvest_last_amount_compound (p : StrategyParams)
    (h0 : 0 < p.initial_investment) (hg : 0 < p.percentage_gain)
    (hd : 1 ≤ p.trading_days) (ht : 1 ≤ p.trades_per_day) (hr : p.reinvest = true) :
    finalAmount (project p) =
      some (p.initial_investment
        * (1 + p.percentage_gain / 100) ^ (p.trading_days * p.trades_per_day)) :=
  reinvest_finalAmount p hd hr

theorem reinvest_last_amount_compound_witness :
    finalAmount (project ⟨1000, 2, 10, 1, true⟩) =
      some (1000 * (1 + 2 / 100) ^ (10 * 1)) :=
  reinvest_last_amount_compound ⟨1000, 2, 10, 1, true⟩
    (by norm_num) (by norm_num) (by norm_num) (by norm_num) rfl

/-- C2: with `reinvest = false` the projection records days `1..trading_days`
in order, each day's amount is `initial_investment + day * trades_per_day *
initial_investment * percentage_gain/100`, and every day's recorded gain is
the constant `trades_per_day * initial_investment * percentage_gain/100`. -/
theorem flat_mode_linear (p : StrategyParams) (hr : p.reinvest = false) :
    ((project p).map DayRecord.day = (List.range p.trading_days).map fun i => i + 1)
    ∧ ∀ r ∈ project p,
        r.amount = p.initial_investment
          + (r.day : ℚ) * (p.trades_per_day : ℚ) * p.initial_investment
            * (p.percentage_gain / 100)
        ∧ r.daily_gain = (p.trades_per_day : ℚ) * p.initial_investment
            * (p.percentage_gain / 100) := by
  have hproj : project p =
      flatRecords p.initial_investment
        (p.initial_investment * (p.percentage_gain / 100) * (p.trades_per_day : ℚ))
        p.trading_days := by
    unfold project
    rw [hr]
    simp
  constructor
  · rw [hproj]
    simp [flatRecords, List.map_map, Function.comp]
  · intro r hmem
    rw [hproj, mem_flatRecords] at hmem
    obtain ⟨i, hi, rfl⟩ := hmem
    constructor
    · push_cast
      ring
    · ring

theorem flat_mode_linear_witness :
    ((project ⟨1000, 2, 2, 1, false⟩).map DayRecord.day =
      (List.range 2).map fun i => i + 1)
    ∧ ∀ r ∈ project ⟨1000, 2, 2, 1, false⟩,
        r.amount = 1000 + (r.day : ℚ) * ((1 : ℕ) : ℚ) * 1000 * (2 / 100)
        ∧ r.daily_gain = ((1 : ℕ) : ℚ) * 1000 * (2 / 100) :=
  flat_mode_linear ⟨1000, 2, 2, 1, false⟩ rfl

/-- C3 counterexample: at `trading_days = 0` the engine does not fail with
an `InvalidParameter` error; it succeeds and returns the empty record
sequence, contradicting the claimed rejection. -/
theorem no_validation_counterexample :
    projectE ⟨1000, 2, 0, 1, true⟩ = Except.ok [] := rfl

/-- C3 amended: the code performs no input validation at all; for any
parameters with `trading_days = 0` (in range or not) the projection
returns successfully with an empty day sequence, raising no error. -/
theorem no_validation_empty (p : StrategyParams) (h : p.trading_days = 0) :
    projectE p = Except.ok [] := by
  unfold projectE project
  cases hr : p.reinvest <;> simp [hr, h, reinvestLoop, flatRecords]

theorem no_validation_empty_witness :
    projectE ⟨500, 1, 0, 3, false⟩ = Except.ok [] :=
  no_validation_empty ⟨500, 1, 0, 3, false⟩ rfl

/-- C4: whenever `total_profit < deductions` (in particular for any loss
with non-negative deductions), the tax computation clamps
`taxable_profit` to 0, yields `total_tax = 0`, and passes the profit
through unchanged as `net_profit`. -/
theorem tax_loss_clamp (total_profit : ℚ) (q : TaxParams)
    (h : total_profit < q.tax_deductions) :
    (computeTax total_profit q).taxable_profit = 0
    ∧ (computeTax total_profit q).total_tax = 0
    ∧ (computeTax total_profit q).net_profit = total_profit := by
  have h0 : max 0 (total_profit - q.tax_deductions) = 0 :=
    max_eq_left (by linarith)
  refine ⟨?_, ?_, ?_⟩ <;> simp [computeTax, h0]

theorem tax_loss_clamp_witness :
    (computeTax (-50) ⟨22, 5, 0, GainType.ShortTerm, 15⟩).taxable_profit = 0
    ∧ (computeTax (-50) ⟨22, 5, 0, GainType.ShortTerm, 15⟩).total_tax = 0
    ∧ (computeTax (-50) ⟨22, 5, 0, GainType.ShortTerm, 15⟩).net_profit = -50 :=
  tax_loss_clamp (-50) ⟨22, 5, 0, GainType.ShortTerm, 15⟩ (by norm_num)

/-- C5: the federal line uses the long-term rate exactly when
`gain_type = LongTerm` and the federal rate otherwise (never both), and
the state line is `taxable_profit * state_rate/100` for every gain
type. -/
theorem tax_rate_exclusive (total_profit : ℚ) (q : TaxParams) :
    ((computeTax total_profit q).federal_tax =
      if q.capital_gains = GainType.LongTerm then
        (computeTax total_profit q).taxable_profit * (q.long_term_rate / 100)
      else
        (computeTax total_profit q).taxable_profit * (q.federal_tax_rate / 100))
    ∧ (computeTax total_profit q).state_tax =
        (computeTax total_profit q).taxable_profit * (q.state_tax_rate / 100)
    ∧ ∀ g2 : GainType,
        (computeTax total_profit { q with capital_gains := g2 }).state_tax =
          (computeTax total_profit q).state_tax := by
  refine ⟨?_, rfl, fun g2 => rfl⟩
  unfold computeTax
  split <;> rfl

/-- C6: `total_tax` is the sum of the federal and state lines, and
`net_profit` is the gross profit minus `total_tax` (deductions are not
subtracted a second time). -/
theorem tax_net_from_gross (total_profit : ℚ) (q : TaxParams) :
    (computeTax total_profit q).total_tax =
      (computeTax total_profit q).federal_tax + (computeTax total_profit q).state_tax
    ∧ (computeTax total_profit q).net_profit =
        total_profit - (computeTax total_profit q).total_tax :=
  ⟨rfl, rfl⟩

/-- C7: with positive gain per trade and valid parameters, in both modes
the recorded amounts are non-decreasing day over day and never drop
below the initial investment. -/
theorem amounts_monotone (p : StrategyParams) (h0 : 0 < p.initial_investment)
    (hg : 0 < p.percentage_gain) (hd : 1 ≤ p.trading_days) (ht : 1 ≤ p.trades_per_day) :
    List.Chain' (fun a b => a ≤ b) ((project p).map DayRecord.amount)
    ∧ ∀ r ∈ project p, p.initial_investment ≤ r.amount := by
  have hone : (1 : ℚ) ≤ 1 + p.percentage_gain / 100 := by
    have hq : (0 : ℚ) < p.percentage_gain / 100 := by positivity
    linarith
  cases hmode : p.reinvest
  case false =>
    have hproj : project p =
        flatRecords p.initial_investment
          (p.initial_investment * (p.percentage_gain / 100) * (p.trades_per_day : ℚ))
          p.trading_days := by
      unfold project
      rw [hmode]
      simp
    set dg := p.initial_investment * (p.percentage_gain / 100) * (p.trades_per_day : ℚ)
      with hdg
    have hdg0 : 0 ≤ dg := by rw [hdg]; positivity
    constructor
    · rw [hproj, List.chain'_iff_get]
      intro i hi
      rw [List.length_map, flatRecords_length] at hi
      rw [List.get_eq_getElem, List.get_eq_getElem, List.getElem_map, List.getElem_map,
        flatRecords_getElem _ _ _ i (by rw [flatRecords_length]; omega),
        flatRecords_getElem _ _ _ (i + 1) (by rw [flatRecords_length]; omega)]
      have hcast : ((i : ℚ) + 1) ≤ ((i + 1 : ℕ) : ℚ) + 1 := by push_cast; linarith
      show p.initial_investment + dg * ((i : ℚ) + 1)
          ≤ p.initial_investment + dg * (((i + 1 : ℕ) : ℚ) + 1)
      nlinarith
    · intro r hmem
      rw [hproj, mem_flatRecords] at hmem
      obtain ⟨i, hi, rfl⟩ := hmem
      show p.initial_investment ≤ p.initial_investment + dg * ((i : ℚ) + 1)
      have h1 : (0 : ℚ) ≤ (i : ℚ) + 1 := by positivity
      nlinarith
  case true =>
    have hproj : project p =
        reinvestLoop p.percentage_gain p.trades_per_day p.trading_days 1
          p.initial_investment := by
      unfold project
      rw [hmode]
      simp
    constructor
    · rw [hproj, List.chain'_iff_get]
      intro i hi
      rw [List.length_map, reinvestLoop_length] at hi
      rw [List.get_eq_getElem, List.get_eq_getElem, List.getElem_map, List.getElem_map,
        reinvestLoop_getElem _ _ _ _ _ i (by rw [reinvestLoop_length]; omega),
        reinvestLoop_getElem _ _ _ _ _ (i + 1) (by rw [reinvestLoop_length]; omega)]
      show p.initial_investment * (1 + p.percentage_gain / 100) ^ ((i + 1) * p.trades_per_day)
          ≤ p.initial_investment
            * (1 + p.percentage_gain / 100) ^ ((i + 1 + 1) * p.trades_per_day)
      exact mul_le_mul_of_nonneg_left
        (pow_le_pow_right₀ hone (Nat.mul_le_mul_right _ (by omega))) h0.le
    · intro r hmem
      rw [hproj, List.mem_iff_get] at hmem
      obtain ⟨⟨i, hi⟩, hget⟩ := hmem
      rw [← hget, reinvestLoop_get]
      show p.initial_investment
          ≤ p.initial_investment * (1 + p.percentage_gain / 100) ^ ((i + 1) * p.trades_per_day)
      exact le_mul_of_one_le_right h0.le (one_le_pow₀ hone)

theorem amounts_monotone_witness :
    List.Chain' (fun a b => a ≤ b) ((project ⟨1000, 2, 2, 2, true⟩).map DayRecord.amount)
    ∧ ∀ r ∈ project ⟨1000, 2, 2, 2, true⟩, (1000 : ℚ) ≤ r.amount :=
  amounts_monotone ⟨1000, 2, 2, 2, true⟩
    (by norm_num) (by norm_num) (by norm_num) (by norm_num)

/-- C8: the projection is a deterministic pure function of its inputs —
two parameter records that agree field by field produce identical
output sequences. -/
theorem projection_deterministic (p q : StrategyParams)
    (h : p.initial_investment = q.initial_investment
      ∧ p.percentage_gain = q.percentage_gain
      ∧ p.trading_days = q.trading_days
      ∧ p.trades_per_day = q.trades_per_day
      ∧ p.reinvest = q.reinvest) :
    project p = project q := by
  have hpq : p = q := by
    obtain ⟨h1, h2, h3, h4, h5⟩ := h
    cases p
    cases q
    simp_all
  rw [hpq]

theorem projection_deterministic_witness :
    project ⟨1000, 2, 10, 1, true⟩ = project ⟨1000, 2, 10, 1, true⟩ :=
  projection_deterministic ⟨1000, 2, 10, 1, true⟩ ⟨1000, 2, 10, 1, true⟩
    ⟨rfl, rfl, rfl, rfl, rfl⟩

/-- C9: in both modes the initial investment plus the sum of all
recorded daily gains equals the last recorded amount. -/
theorem gains_sum_to_final (p : StrategyParams) (hd : 1 ≤ p.trading_days) :
    finalAmount (project p) =
      some (p.initial_investment + ((project p).map DayRecord.daily_gain).sum) := by
  cases hmode : p.reinvest
  case false =>
    have hproj : project p =
        flatRecords p.initial_investment
          (p.initial_investment * (p.percentage_gain / 100) * (p.trades_per_day : ℚ))
          p.trading_days := by
      unfold project
      rw [hmode]
      simp
    rw [flat_finalAmount p hd hmode, hproj]
    have hsum : ((flatRecords p.initial_investment
        (p.initial_investment * (p.percentage_gain / 100) * (p.trades_per_day : ℚ))
        p.trading_days).map DayRecord.daily_gain).sum =
        (p.trading_days : ℚ)
          * (p.initial_investment * (p.percentage_gain / 100) * (p.trades_per_day : ℚ)) := by
      rw [flatRecords_map_gain, List.sum_replicate, nsmul_eq_mul]
    rw [hsum]
    congr 1
    ring
  case true =>
    have hproj : project p =
        reinvestLoop p.percentage_gain p.trades_per_day p.trading_days 1
          p.initial_investment := by
      unfold project
      rw [hmode]
      simp
    rw [reinvest_finalAmount p hd hmode, hproj, reinvestLoop_sum_gains]
    congr 1
    ring

theorem gains_sum_to_final_witness :
    finalAmount (project ⟨1000, 2, 3, 1, false⟩) =
      some (1000 + ((project ⟨1000, 2, 3, 1, false⟩).map DayRecord.daily_gain).sum) :=
  gains_sum_to_final ⟨1000, 2, 3, 1, false⟩ (by norm_num)

/-- C10: in reinvest mode the final amount and total profit depend on
`trading_days` and `trades_per_day` only through their product —
exchanging the two values leaves both unchanged. -/
theorem reinvest_swap_final (p : StrategyParams) (hd : 1 ≤ p.trading_days)
    (ht : 1 ≤ p.trades_per_day) (hr : p.reinvest = true) :
    finalAmount (project (swapDays p)) = finalAmount (project p)
    ∧ totalProfit (swapDays p) = totalProfit p := by
  have h1 := reinvest_finalAmount p hd hr
  have h2 : finalAmount (project (swapDays p)) =
      some (p.initial_investment
        * (1 + p.percentage_gain / 100) ^ (p.trades_per_day * p.trading_days)) :=
    reinvest_finalAmount (swapDays p) ht hr
  have hfin : finalAmount (project (swapDays p)) = finalAmount (project p) := by
    rw [h1, h2, Nat.mul_comm p.trades_per_day p.trading_days]
  refine ⟨hfin, ?_⟩
  unfold totalProfit
  rw [hfin]
  rfl

theorem reinvest_swap_final_witness :
    finalAmount (project (swapDays ⟨1000, 2, 3, 2, true⟩)) =
      finalAmount (project ⟨1000, 2, 3, 2, true⟩)
    ∧ totalProfit (swapDays ⟨1000, 2, 3, 2, true⟩) = totalProfit ⟨1000, 2, 3, 2, true⟩ :=
  reinvest_swap_final ⟨1000, 2, 3, 2, true⟩ (by norm_num) (by norm_num) rfl

end InvestCalc
